import Mathlib

set_option maxRecDepth 100000

/-
Verification development for the mdsearch library (multi-dimensional
exact-match point indexes: KDTree, BucketKDTree, PyramidTree/HashStructure,
Multigrid).

Modelling decisions (shallow embedding of the C++ sources):
- The element type (C++ `float`, typedef `Real` in types.hpp) is modelled
  by exact fractions: a pair of integers interpreted as num/den, added,
  subtracted, multiplied and divided exactly the way the C++ expressions
  are, and compared by cross multiplication.  Every concrete input used
  below is a small decimal fraction, and on those inputs the float
  computations under study (tolerant comparison against EPSILON, means of
  eight one-decimal values, normalisation against the boundary [0,1])
  branch exactly as the exact computation does.  Fractions with a zero
  denominator only arise from divisions by zero (empty-leaf averages,
  zero-width boundary intervals), which the C++ code also treats as
  degenerate (UB / inf) and which no claim exercises.
- `Point<D>` is a list of fractions; `operator[]` is `coord` (C++ always
  indexes below D, so the default value is never reached on real inputs).
- Nullable `Node*` pointers become `nil` constructors; `boost::unordered_map`
  becomes an association list (no claim depends on bucket order).
- C++ conversion of a floating hash expression to `HashType` (= `long`)
  truncates toward zero; `rTrunc` models that with `Int.tdiv`.
- `Multigrid::insertIntoBucket` can diverge (mutual recursion with no
  structural decrease), so the multigrid operations take a fuel argument
  and return `Option`; the concrete runs proved below use fuel far above
  the recursion depth of the corresponding C++ runs.  `BucketKDTree`
  insertion recurses through splitAndInsert and is fueled likewise.
-/

namespace mdsearch

/-! ## Exact fractions standing in for the C++ float `Real` -/

/-- A fraction num/den of machine integers; the exact stand-in for the
C++ `float` element type. -/
structure Real where
  num : Int
  den : Int
deriving DecidableEq

instance (n : Nat) : OfNat Real n := ⟨⟨(n : Int), 1⟩⟩

instance : Add Real := ⟨fun a b => ⟨a.num * b.den + b.num * a.den, a.den * b.den⟩⟩

instance : Sub Real := ⟨fun a b => ⟨a.num * b.den - b.num * a.den, a.den * b.den⟩⟩

instance : Mul Real := ⟨fun a b => ⟨a.num * b.num, a.den * b.den⟩⟩

instance : Div Real := ⟨fun a b => ⟨a.num * b.den, a.den * b.num⟩⟩

/-- Value-level strict less-than of fractions (the C++ float `<`):
a < b iff the difference is negative, i.e. its num and den have opposite
signs. -/
def rlt (a b : Real) : Bool := (a - b).num * (a - b).den < 0

/-- Value-level equality of fractions (the C++ float `==`). -/
def req (a b : Real) : Bool := (a - b).num == 0

/-- Absolute value (std::fabs / std::abs). -/
def rAbs (a : Real) : Real := ⟨|a.num|, |a.den|⟩

/-- std::min on the element type: returns the second argument only when it
is strictly smaller. -/
def rmin (a b : Real) : Real := if rlt b a then b else a

/-- C++ conversion of a float value to `long` (HashType): truncation toward
zero. -/
def rTrunc (a : Real) : Int := Int.tdiv a.num a.den

/-! ## Core scalar comparator and points (types.hpp / point.hpp) -/

/-- EPSILON from types.hpp: absolute tolerance 1e-7 for float comparison. -/
def EPSILON : Real := ⟨1, 10000000⟩

/-- compare from types.hpp: -1 / 0 / 1 three-valued tolerant comparison. -/
def compare (t base : Real) : Int :=
  if rlt (rAbs (t - base)) EPSILON then 0
  else if rlt t base then -1
  else 1

/-- A point is its list of coordinates (C++ fixed-size array of D floats). -/
abbrev Pt := List Real

/-- Coordinate access, point.hpp operator[]. -/
def coord (p : Pt) (d : Nat) : Real := p.getD d 0

/-- Point operator== from point.hpp: every coordinate pair compares equal
under the tolerant comparator. -/
def ptEq (D : Nat) (a b : Pt) : Bool :=
  (List.range D).all fun d => compare (coord a d) (coord b d) == 0

/-- Point::sum from point.hpp: sum of the first D coordinates. -/
def ptSum (D : Nat) (p : Pt) : Real :=
  (List.range D).foldl (fun s d => s + coord p d) 0

/-! ## Point kd-tree (kdtree.hpp) -/

/-- A kd-tree: `nil` models a NULL `Node*`, `node` stores the point and the
two (possibly NULL) children. -/
inductive KDT : Type where
  | nil : KDT
  | node : Pt → KDT → KDT → KDT
deriving DecidableEq

/-- nextCuttingDimension from kdtree.hpp. -/
def nextCuttingDimension (D cd : Nat) : Nat := (cd + 1) % D

/-- KDTree::insert (kdtree.hpp, iterative walk rendered as recursion along
the path): left when p[cd] < node[cd]; abort false when the node's point
equals p; otherwise right; insert a fresh node at the first empty slot. -/
def kdInsertAux (D : Nat) : KDT → Pt → Nat → KDT × Bool
  | KDT.nil, p, _ => (KDT.node p KDT.nil KDT.nil, true)
  | KDT.node q l r, p, cd =>
    if rlt (coord p cd) (coord q cd) then
      let res := kdInsertAux D l p (nextCuttingDimension D cd)
      (KDT.node q res.1 r, res.2)
    else if ptEq D p q then
      (KDT.node q l r, false)
    else
      let res := kdInsertAux D r p (nextCuttingDimension D cd)
      (KDT.node q l res.1, res.2)

/-- KDTree::insert entry point (cutting dimension starts at 0). -/
def kdInsert (D : Nat) (t : KDT) (p : Pt) : KDT × Bool :=
  kdInsertAux D t p 0

/-- KDTree::query (kdtree.hpp): equality first, then strict-< branching. -/
def kdQueryAux (D : Nat) : KDT → Pt → Nat → Bool
  | KDT.nil, _, _ => false
  | KDT.node q l r, p, cd =>
    if ptEq D p q then true
    else if rlt (coord p cd) (coord q cd) then
      kdQueryAux D l p (nextCuttingDimension D cd)
    else
      kdQueryAux D r p (nextCuttingDimension D cd)

/-- KDTree::query entry point. -/
def kdQuery (D : Nat) (t : KDT) (p : Pt) : Bool := kdQueryAux D t p 0

/-- KDTree::findMinimum (kdtree.hpp): minimum point of the subtree along
`dim`; NULL in gives NULL out, modelled by Option.  The comparisons
`minVal == point[dim]` are raw float equality (req) on std::min results. -/
def kdFindMin (D : Nat) : KDT → Nat → Nat → Option Pt
  | KDT.nil, _, _ => none
  | KDT.node q l r, dim, cd =>
    if dim = cd then
      match l with
      | KDT.nil => some q
      | KDT.node q2 l2 r2 =>
        kdFindMin D (KDT.node q2 l2 r2) dim (nextCuttingDimension D cd)
    else
      match kdFindMin D l dim (nextCuttingDimension D cd),
            kdFindMin D r dim (nextCuttingDimension D cd) with
      | some a, some b =>
        let minVal := rmin (coord q dim) (rmin (coord a dim) (coord b dim))
        if req minVal (coord q dim) then some q
        else if req minVal (coord a dim) then some a
        else some b
      | some a, none =>
        if req (rmin (coord q dim) (coord a dim)) (coord q dim) then some q
        else some a
      | none, some b =>
        if req (rmin (coord q dim) (coord b dim)) (coord q dim) then some q
        else some b
      | none, none => some q

/-- KDTree::recursiveRemove (kdtree.hpp).  Note: the final `else` branch is
taken as soon as the single coordinate p[cd] equals node[cd] under raw
comparison; the C++ code then assumes the whole point matches. -/
def kdRemoveAux (D : Nat) : KDT → Pt → Nat → KDT × Bool
  | KDT.nil, _, _ => (KDT.nil, false)
  | KDT.node q l r, p, cd =>
    if rlt (coord p cd) (coord q cd) then
      let res := kdRemoveAux D l p (nextCuttingDimension D cd)
      (KDT.node q res.1 r, res.2)
    else if rlt (coord q cd) (coord p cd) then
      let res := kdRemoveAux D r p (nextCuttingDimension D cd)
      (KDT.node q l res.1, res.2)
    else
      match l, r with
      | KDT.nil, KDT.nil => (KDT.nil, true)
      | _, KDT.node rq rl rr =>
        match kdFindMin D (KDT.node rq rl rr) cd (nextCuttingDimension D cd) with
        | some m =>
          let res := kdRemoveAux D (KDT.node rq rl rr) m (nextCuttingDimension D cd)
          (KDT.node m l res.1, res.2)
        | none => (KDT.node q l r, false)
      | KDT.node lq ll lr, KDT.nil =>
        match kdFindMin D (KDT.node lq ll lr) cd (nextCuttingDimension D cd) with
        | some m =>
          let res := kdRemoveAux D (KDT.node lq ll lr) m (nextCuttingDimension D cd)
          (KDT.node m KDT.nil res.1, res.2)
        | none => (KDT.node q l r, false)

/-- KDTree::remove entry point. -/
def kdRemove (D : Nat) (t : KDT) (p : Pt) : KDT × Bool :=
  kdRemoveAux D t p 0

/-- All points stored in a kd-tree. -/
def kdPoints : KDT → List Pt
  | KDT.nil => []
  | KDT.node q l r => q :: (kdPoints l ++ kdPoints r)

/-! ## Bucket kd-tree (dataset.hpp / bucket_kdtree.hpp) -/

/-- MAX_POINTS_PER_BUCKET from bucket_kdtree.hpp. -/
def MAX_POINTS_PER_BUCKET : Nat := 8

/-- MIN_POINTS_BEFORE_MERGE from bucket_kdtree.hpp (= 8 / 2). -/
def MIN_POINTS_BEFORE_MERGE : Nat := MAX_POINTS_PER_BUCKET / 2

/-- A BucketKDTreeNode: a leaf carries (m_totalPoints, m_points); an internal
node carries (m_totalPoints, m_cuttingDimension, m_cuttingValue, children).
The C++ parent pointer is realised by returning total-count deltas and
merge-attempt requests up the recursion (see bkdRemoveAux). -/
inductive BKD : Type where
  | leaf : Int → List Pt → BKD
  | node : Int → Nat → Real → BKD → BKD → BKD
deriving DecidableEq

/-- BucketKDTreeNode::contains: std::find under tolerant Point equality. -/
def bkdContains (D : Nat) (pts : List Pt) (p : Pt) : Bool :=
  pts.any fun q => ptEq D q p

/-- rangeOfDimension from bucket_kdtree.hpp: max - min of coordinate d,
with the source's `if (val < min) ... else if (val > max)` update starting
from the first point's value. -/
def rangeOfDimension (d : Nat) (pts : List Pt) : Real :=
  match pts with
  | [] => 0
  | q :: _ =>
    let v0 := coord q d
    let mm := pts.foldl
      (fun (mm : Real × Real) r =>
        let v := coord r d
        if rlt v mm.1 then (v, mm.2)
        else if rlt mm.2 v then (mm.1, v)
        else mm)
      (v0, v0)
    mm.2 - mm.1

/-- dimensionWithHighestRange from bucket_kdtree.hpp: first dimension with
the strictly largest range (update only on `range > maxRange`). -/
def dimensionWithHighestRange (D : Nat) (pts : List Pt) : Nat :=
  (((List.range D).drop 1).foldl
    (fun (acc : Nat × Real) d =>
      let rg := rangeOfDimension d pts
      if rlt acc.2 rg then (d, rg) else acc)
    (0, rangeOfDimension 0 pts)).1

/-- averageOfDimension from bucket_kdtree.hpp: mean of coordinate d over
the given points (sum accumulated by +=, divided by the count). -/
def averageOfDimension (d : Nat) (pts : List Pt) : Real :=
  (pts.foldl (fun s q => s + coord q d) 0) / ⟨(pts.length : Int), 1⟩

/-- Result of an insert on a subtree: the new subtree, the bool the member
function returns, and the net totalPoints change the C++ code propagates to
ancestors through incrementTotalPoints. -/
structure InsRes where
  tree : BKD
  flag : Bool
  delta : Int
deriving DecidableEq

/-- BucketKDTree::insert = findLeafFor + BucketKDTreeNode::addPoint +
BucketKDTreeNode::splitAndInsert, fused into one descent (the C++ descent
mutates nothing, so the composition is this recursion).  The split
recursion has no structural decrease (addPoint on an overfull child calls
splitAndInsert again), hence the fuel; `none` models the C++ call not
terminating.  std::partition is unstable but partitions exactly; it is
modelled by the stable List.partition, which no claim can observe. -/
def bkdInsertAux (D : Nat) : Nat → BKD → Pt → Option InsRes
  | 0, _, _ => none
  | f + 1, BKD.node tot cd cv l r, p =>
    if rlt (coord p cd) cv then
      match bkdInsertAux D f l p with
      | none => none
      | some res => some ⟨BKD.node (tot + res.delta) cd cv res.tree r, res.flag, res.delta⟩
    else
      match bkdInsertAux D f r p with
      | none => none
      | some res => some ⟨BKD.node (tot + res.delta) cd cv l res.tree, res.flag, res.delta⟩
  | f + 1, BKD.leaf tot pts, p =>
    if bkdContains D pts p then
      some ⟨BKD.leaf tot pts, false, 0⟩
    else if pts.length < MAX_POINTS_PER_BUCKET then
      some ⟨BKD.leaf (tot + 1) (pts ++ [p]), true, 1⟩
    else
      let cd := dimensionWithHighestRange D pts
      let cv := averageOfDimension cd pts
      let part := pts.partition fun q => rlt (coord q cd) cv
      if rlt (coord p cd) cv then
        match bkdInsertAux D f (BKD.leaf part.1.length part.1) p with
        | none => none
        | some res =>
          some ⟨BKD.node (tot + res.delta) cd cv res.tree
                  (BKD.leaf part.2.length part.2), true, res.delta⟩
      else
        match bkdInsertAux D f (BKD.leaf part.2.length part.2) p with
        | none => none
        | some res =>
          some ⟨BKD.node (tot + res.delta) cd cv
                  (BKD.leaf part.1.length part.1) res.tree, true, res.delta⟩

/-- BucketKDTree::query: descend by cutting planes, then leaf contains. -/
def bkdQuery (D : Nat) : BKD → Pt → Bool
  | BKD.leaf _ pts, p => bkdContains D pts p
  | BKD.node _ cd cv l r, p =>
    if rlt (coord p cd) cv then bkdQuery D l p else bkdQuery D r p

/-- The m_points list of a node: leaves carry their points, internal nodes
carry an empty list (BucketKDTreeNode::points returns m_points, which is
cleared on split) -- exactly what attemptMerge reads from its children. -/
def bkdLeafPts : BKD → List Pt
  | BKD.leaf _ pts => pts
  | BKD.node _ _ _ _ _ => []

/-- The stored m_totalPoints counter of the subtree root. -/
def storedTotal : BKD → Int
  | BKD.leaf tot _ => tot
  | BKD.node tot _ _ _ _ => tot

/-- Whether the node is a leaf (m_isLeaf). -/
def isLeafB : BKD → Bool
  | BKD.leaf _ _ => true
  | BKD.node _ _ _ _ _ => false

/-- All points stored in the subtree. -/
def bkdPoints : BKD → List Pt
  | BKD.leaf _ pts => pts
  | BKD.node _ _ _ l r => bkdPoints l ++ bkdPoints r

/-- The cutting value of the root node (0 for a leaf, matching the C++
constructor default). -/
def bkdCuttingValue : BKD → Real
  | BKD.leaf _ _ => 0
  | BKD.node _ _ cv _ _ => cv

/-- The cutting dimension of the root node (0 for a leaf, matching the C++
constructor default). -/
def bkdCuttingDimension : BKD → Nat
  | BKD.leaf _ _ => 0
  | BKD.node _ cd _ _ _ => cd

/-- BucketKDTreeNode::attemptMerge on one node: if m_totalPoints has dropped
below MIN_POINTS_BEFORE_MERGE, replace the node by a leaf holding the
concatenation of the children's m_points lists (lossy if a child is
internal, since its m_points is empty); the bool says whether a merge
happened, i.e. whether the C++ code recurses into the parent.  (The C++
comparison converts the int counter to size_t; the conversions agree on
the nonnegative counters every reachable state has.) -/
def attemptMergeB : BKD → BKD × Bool
  | BKD.node tot cd cv l r =>
    if tot < (MIN_POINTS_BEFORE_MERGE : Int) then
      (BKD.leaf tot (bkdLeafPts l ++ bkdLeafPts r), true)
    else (BKD.node tot cd cv l r, false)
  | BKD.leaf tot pts => (BKD.leaf tot pts, false)

/-- The single erase the C++ erase(remove(...)) idiom performs on the
leaf's vector: drop the first tolerantly-equal element. -/
def erasePtFirst (D : Nat) (pts : List Pt) (p : Pt) : List Pt :=
  pts.eraseP fun q => ptEq D q p

/-- Result of a remove on a subtree: new subtree, returned bool, net
totalPoints delta, and whether attemptMerge must be invoked on the parent
(the leaf's removePoint calls m_parent->attemptMerge, and a merged node
calls its own parent's attemptMerge). -/
structure RemRes where
  tree : BKD
  flag : Bool
  delta : Int
  attemptUp : Bool
deriving DecidableEq

/-- The return path of a remove through one internal node: the node's
total has absorbed the decrement (decrementTotalPoints propagated it), and
attemptMerge runs on this node exactly when the child below requested it
(the removal leaf calls m_parent->attemptMerge; a merged node calls its
own parent's attemptMerge).  `childLeft` says which child the removal
descended into. -/
def mergePhase (tot : Int) (cd : Nat) (cv : Real) (res : RemRes)
    (other : BKD) (childLeft : Bool) : RemRes :=
  let me := if childLeft then BKD.node (tot + res.delta) cd cv res.tree other
            else BKD.node (tot + res.delta) cd cv other res.tree
  if res.attemptUp then
    ⟨(attemptMergeB me).1, res.flag, res.delta, (attemptMergeB me).2⟩
  else ⟨me, res.flag, res.delta, false⟩

/-- BucketKDTree::remove = findLeafFor + BucketKDTreeNode::removePoint with
the attemptMerge cascade replayed on the way back up the descent path. -/
def bkdRemoveAux (D : Nat) : BKD → Pt → RemRes
  | BKD.leaf tot pts, p =>
    if bkdContains D pts p then
      ⟨BKD.leaf (tot - 1) (erasePtFirst D pts p), true, -1, true⟩
    else ⟨BKD.leaf tot pts, false, 0, false⟩
  | BKD.node tot cd cv l r, p =>
    if rlt (coord p cd) cv then
      mergePhase tot cd cv (bkdRemoveAux D l p) r true
    else
      mergePhase tot cd cv (bkdRemoveAux D r p) l false

/-- BucketKDTree::remove entry point (the root has no parent, so a final
attemptUp request dies). -/
def bkdRemove (D : Nat) (t : BKD) (p : Pt) : BKD × Bool :=
  let res := bkdRemoveAux D t p
  (res.tree, res.flag)

/-- Post-insert state helper: the tree after an insert, or the unchanged
tree when the fueled computation does not finish (the corresponding C++
call would not return, producing no new state). -/
def bkdInsOr (D f : Nat) (t : BKD) (p : Pt) : BKD :=
  match bkdInsertAux D f t p with
  | some res => res.tree
  | none => t

/-- The tree after a remove. -/
def bkdRemStep (D : Nat) (t : BKD) (p : Pt) : BKD :=
  (bkdRemoveAux D t p).tree

/-- States of a BucketKDTree reachable from a fresh tree (an empty leaf with
m_totalPoints = 0) by insert / remove / clear; query does not mutate. -/
inductive BKDReachable (D : Nat) : BKD → Prop where
  | init : BKDReachable D (BKD.leaf 0 [])
  | insert (t : BKD) (p : Pt) (f : Nat) :
      BKDReachable D t → BKDReachable D (bkdInsOr D f t p)
  | remove (t : BKD) (p : Pt) :
      BKDReachable D t → BKDReachable D (bkdRemStep D t p)
  | clear (t : BKD) :
      BKDReachable D t → BKDReachable D (BKD.leaf 0 [])

/-- Totals-consistency invariant: every stored m_totalPoints counter equals
the sum of its children's counters (leaf: its point count). -/
def bkdCons : BKD → Prop
  | BKD.leaf tot pts => tot = pts.length
  | BKD.node tot _ _ l r => tot = storedTotal l + storedTotal r ∧ bkdCons l ∧ bkdCons r

/-- Merge invariant: every internal node's total is at least
MIN_POINTS_BEFORE_MERGE. -/
def bkdMinInv : BKD → Prop
  | BKD.leaf _ _ => True
  | BKD.node tot _ _ l r =>
    (MIN_POINTS_BEFORE_MERGE : Int) ≤ tot ∧ bkdMinInv l ∧ bkdMinInv r

/-- The property claimed of every attempted merge during a remove of p:
whenever the cascade reaches an internal node (attemptUp from the updated
child) and its decremented total is below the threshold, both children are
leaves, and the merged leaf's point list (concatenated children m_points)
is the full point list of the subtree -- no point is lost. -/
def bkdRemoveMergeSafe (D : Nat) : BKD → Pt → Prop
  | BKD.leaf _ _, _ => True
  | BKD.node tot cd cv l r, p =>
    if rlt (coord p cd) cv then
      bkdRemoveMergeSafe D l p ∧
      ((bkdRemoveAux D l p).attemptUp = true →
        tot + (bkdRemoveAux D l p).delta < (MIN_POINTS_BEFORE_MERGE : Int) →
        isLeafB (bkdRemoveAux D l p).tree = true ∧ isLeafB r = true ∧
        bkdLeafPts (bkdRemoveAux D l p).tree ++ bkdLeafPts r
          = bkdPoints (bkdRemoveAux D l p).tree ++ bkdPoints r)
    else
      bkdRemoveMergeSafe D r p ∧
      ((bkdRemoveAux D r p).attemptUp = true →
        tot + (bkdRemoveAux D r p).delta < (MIN_POINTS_BEFORE_MERGE : Int) →
        isLeafB l = true ∧ isLeafB (bkdRemoveAux D r p).tree = true ∧
        bkdLeafPts l ++ bkdLeafPts (bkdRemoveAux D r p).tree
          = bkdPoints l ++ bkdPoints (bkdRemoveAux D r p).tree)

/-! ### Concrete BucketKDTree scenario (spec scenario B): D = 3, nine points
with dimension-0 coordinates 0.0, 0.1, ..., 0.8 and zero elsewhere, so
dimension 0 has the largest range. -/

/-- The i-th scenario-B point: ((i/10), 0, 0). -/
def bk (i : Nat) : Pt := [⟨(i : Int), 10⟩, 0, 0]

/-- Fuel amply above the recursion depth of these runs. -/
def bkdFuel : Nat := 32

def bkdTree1 : BKD := bkdInsOr 3 bkdFuel (BKD.leaf 0 []) (bk 0)
def bkdTree2 : BKD := bkdInsOr 3 bkdFuel bkdTree1 (bk 1)
def bkdTree3 : BKD := bkdInsOr 3 bkdFuel bkdTree2 (bk 2)
def bkdTree4 : BKD := bkdInsOr 3 bkdFuel bkdTree3 (bk 3)
def bkdTree5 : BKD := bkdInsOr 3 bkdFuel bkdTree4 (bk 4)
def bkdTree6 : BKD := bkdInsOr 3 bkdFuel bkdTree5 (bk 5)
def bkdTree7 : BKD := bkdInsOr 3 bkdFuel bkdTree6 (bk 6)
def bkdTree8 : BKD := bkdInsOr 3 bkdFuel bkdTree7 (bk 7)
def bkdTree9 : BKD := bkdInsOr 3 bkdFuel bkdTree8 (bk 8)

def bkdTree9r1 : BKD := bkdRemStep 3 bkdTree9 (bk 0)
def bkdTree9r2 : BKD := bkdRemStep 3 bkdTree9r1 (bk 1)
def bkdTree9r3 : BKD := bkdRemStep 3 bkdTree9r2 (bk 2)
def bkdTree9r4 : BKD := bkdRemStep 3 bkdTree9r3 (bk 3)
def bkdTree9r5 : BKD := bkdRemStep 3 bkdTree9r4 (bk 4)
def bkdTree9r6 : BKD := bkdRemStep 3 bkdTree9r5 (bk 5)

/-! ### Invariant lemmas for the BucketKDTree merge safety claim -/

theorem storedTotal_leaf (tot : Int) (pts : List Pt) :
    storedTotal (BKD.leaf tot pts) = tot := rfl

theorem storedTotal_node (tot : Int) (cd : Nat) (cv : Real) (l r : BKD) :
    storedTotal (BKD.node tot cd cv l r) = tot := rfl

theorem bkdCons_leaf (tot : Int) (pts : List Pt) :
    bkdCons (BKD.leaf tot pts) ↔ tot = pts.length := Iff.rfl

theorem bkdCons_node (tot : Int) (cd : Nat) (cv : Real) (l r : BKD) :
    bkdCons (BKD.node tot cd cv l r) ↔
      tot = storedTotal l + storedTotal r ∧ bkdCons l ∧ bkdCons r := Iff.rfl

theorem bkdMinInv_leaf (tot : Int) (pts : List Pt) :
    bkdMinInv (BKD.leaf tot pts) := trivial

theorem bkdMinInv_node (tot : Int) (cd : Nat) (cv : Real) (l r : BKD) :
    bkdMinInv (BKD.node tot cd cv l r) ↔
      (MIN_POINTS_BEFORE_MERGE : Int) ≤ tot ∧ bkdMinInv l ∧ bkdMinInv r := Iff.rfl

theorem bkdCons_total_nonneg : ∀ t : BKD, bkdCons t → 0 ≤ storedTotal t := by
  intro t
  induction t with
  | leaf tot pts =>
    intro h
    rw [bkdCons_leaf] at h
    rw [storedTotal_leaf, h]
    exact Int.ofNat_nonneg pts.length
  | node tot cd cv l r ihl ihr =>
    intro h
    obtain ⟨ht, hl, hr⟩ := h
    rw [storedTotal_node, ht]
    exact add_nonneg (ihl hl) (ihr hr)

theorem length_filter_add_length_filter_not (pr : Pt → Bool) :
    ∀ l : List Pt,
      (l.filter pr).length + (l.filter (not ∘ pr)).length = l.length := by
  intro l
  induction l with
  | nil => simp
  | cons a t ih =>
    cases h : pr a <;> simp [List.filter_cons, h, Function.comp] <;> omega

theorem length_partition_add (pr : Pt → Bool) (l : List Pt) :
    (l.partition pr).1.length + (l.partition pr).2.length = l.length := by
  rw [List.partition_eq_filter_filter]
  exact length_filter_add_length_filter_not pr l

/-- Insert preserves the totals-consistency and merge invariants, changes
the stored total by the returned delta, and the delta is 0 or 1. -/
theorem bkdInsert_pres (D : Nat) :
    ∀ (f : Nat) (t : BKD) (p : Pt) (res : InsRes),
      bkdInsertAux D f t p = some res → bkdCons t → bkdMinInv t →
      bkdCons res.tree ∧ bkdMinInv res.tree ∧
      storedTotal res.tree = storedTotal t + res.delta ∧
      (res.delta = 0 ∨ res.delta = 1) := by
  intro f
  induction f with
  | zero => intro t p res h; simp [bkdInsertAux] at h
  | succ f ih =>
    intro t p res h hc hm
    cases t with
    | node tot cd cv l r =>
      obtain ⟨htot, hcl, hcr⟩ := hc
      obtain ⟨hmin, hml, hmr⟩ := hm
      simp only [bkdInsertAux] at h
      by_cases hb : rlt (coord p cd) cv
      · simp only [hb, if_true] at h
        cases hrec : bkdInsertAux D f l p with
        | none => rw [hrec] at h; exact absurd h (by simp)
        | some rl =>
          rw [hrec] at h
          obtain ⟨hC, hM, hT, hD⟩ := ih l p rl hrec hcl hml
          cases h
          refine ⟨⟨?_, hC, hcr⟩, ⟨?_, hM, hmr⟩, ?_, hD⟩
          · omega
          · omega
          · rfl
      · simp only [hb, if_false] at h
        cases hrec : bkdInsertAux D f r p with
        | none => rw [hrec] at h; exact absurd h (by simp)
        | some rr =>
          rw [hrec] at h
          obtain ⟨hC, hM, hT, hD⟩ := ih r p rr hrec hcr hmr
          cases h
          refine ⟨⟨?_, hcl, hC⟩, ⟨?_, hml, hM⟩, ?_, hD⟩
          · omega
          · omega
          · rfl
    | leaf tot pts =>
      simp only [bkdInsertAux] at h
      rw [bkdCons_leaf] at hc
      by_cases h1 : bkdContains D pts p
      · simp only [h1, if_true] at h
        cases h
        exact ⟨hc, hm, by simp, Or.inl rfl⟩
      · simp only [h1, if_false] at h
        by_cases h2 : pts.length < MAX_POINTS_PER_BUCKET
        · simp only [h2, if_true] at h
          cases h
          refine ⟨?_, trivial, rfl, Or.inr rfl⟩
          show (tot + 1 : Int) = ((pts ++ [p]).length : Int)
          rw [List.length_append, List.length_cons, List.length_nil]
          omega
        · simp only [h2, if_false] at h
          have hlen : 8 ≤ pts.length := by
            simpa [MAX_POINTS_PER_BUCKET, Nat.not_lt] using h2
          set cdn := dimensionWithHighestRange D pts with hcdn
          set cvn := averageOfDimension cdn pts with hcvn
          set prn : Pt → Bool := fun q => rlt (coord q cdn) cvn with hprn
          have hpart := length_partition_add prn pts
          by_cases h3 : rlt (coord p cdn) cvn
          · simp only [h3, if_true] at h
            cases hrec : bkdInsertAux D f
                (BKD.leaf ((pts.partition prn).1.length) (pts.partition prn).1) p with
            | none => rw [hrec] at h; exact absurd h (by simp)
            | some rl =>
              rw [hrec] at h
              obtain ⟨hC, hM, hT, hD⟩ :=
                ih _ p rl hrec (by rw [bkdCons_leaf]) (bkdMinInv_leaf _ _)
              cases h
              rw [storedTotal_leaf] at hT
              refine ⟨⟨?_, hC, by rw [bkdCons_leaf]⟩, ⟨?_, hM, bkdMinInv_leaf _ _⟩,
                rfl, hD⟩
              · rw [storedTotal_leaf]; omega
              · have h4 : (MIN_POINTS_BEFORE_MERGE : Int) = 4 := rfl
                rw [h4]; omega
          · simp only [h3, if_false] at h
            cases hrec : bkdInsertAux D f
                (BKD.leaf ((pts.partition prn).2.length) (pts.partition prn).2) p with
            | none => rw [hrec] at h; exact absurd h (by simp)
            | some rr =>
              rw [hrec] at h
              obtain ⟨hC, hM, hT, hD⟩ :=
                ih _ p rr hrec (by rw [bkdCons_leaf]) (bkdMinInv_leaf _ _)
              cases h
              rw [storedTotal_leaf] at hT
              refine ⟨⟨?_, by rw [bkdCons_leaf], hC⟩, ⟨?_, bkdMinInv_leaf _ _, hM⟩,
                rfl, hD⟩
              · rw [storedTotal_leaf]; omega
              · have h4 : (MIN_POINTS_BEFORE_MERGE : Int) = 4 := rfl
                rw [h4]; omega

/-- The merge phase of a remove preserves the invariants.  The hypotheses
are the induction facts about the child's remove result; the conclusions
are the same facts one level up. -/
theorem mergePhase_pres (tot : Int) (cd : Nat) (cv : Real) (res : RemRes)
    (other : BKD) (cl : Bool)
    (hcO : bkdCons other) (hmO : bkdMinInv other)
    (hCT : bkdCons res.tree) (hMT : bkdMinInv res.tree)
    (hsum : tot + res.delta = storedTotal res.tree + storedTotal other)
    (hD : res.delta = 0 ∨ res.delta = -1)
    (hA : res.attemptUp = true → res.delta = -1 ∧ isLeafB res.tree = true)
    (hA2 : res.attemptUp = false → (res.delta = 0 ∨ isLeafB res.tree = false))
    (hmin : (MIN_POINTS_BEFORE_MERGE : Int) ≤ tot) :
    bkdCons (mergePhase tot cd cv res other cl).tree ∧
    bkdMinInv (mergePhase tot cd cv res other cl).tree ∧
    storedTotal (mergePhase tot cd cv res other cl).tree
      = tot + (mergePhase tot cd cv res other cl).delta ∧
    ((mergePhase tot cd cv res other cl).delta = 0 ∨
      (mergePhase tot cd cv res other cl).delta = -1) ∧
    ((mergePhase tot cd cv res other cl).attemptUp = true →
      (mergePhase tot cd cv res other cl).delta = -1 ∧
      isLeafB (mergePhase tot cd cv res other cl).tree = true) ∧
    ((mergePhase tot cd cv res other cl).attemptUp = false →
      ((mergePhase tot cd cv res other cl).delta = 0 ∨
        isLeafB (mergePhase tot cd cv res other cl).tree = false)) := by
  have hminI : (MIN_POINTS_BEFORE_MERGE : Int) = 4 := rfl
  have hOnn : 0 ≤ storedTotal other := bkdCons_total_nonneg other hcO
  unfold mergePhase
  by_cases hAtt : res.attemptUp = true
  · obtain ⟨hdel, hLf⟩ := hA hAtt
    cases hRT : res.tree with
    | node a b c d e => rw [hRT] at hLf; exact absurd hLf (by simp [isLeafB])
    | leaf ct cpts =>
      rw [hRT] at hCT hsum
      rw [bkdCons_leaf] at hCT
      rw [storedTotal_leaf] at hsum
      simp only [hAtt, hRT, if_true]
      by_cases hlt : tot + res.delta < (MIN_POINTS_BEFORE_MERGE : Int)
      · cases hO : other with
        | node otot ocd ocv ol orr =>
          exfalso
          rw [hO] at hmO hsum
          have h5 := ((bkdMinInv_node otot ocd ocv ol orr).mp hmO).1
          rw [storedTotal_node] at hsum
          omega
        | leaf otot opts =>
          rw [hO] at hcO hsum
          rw [bkdCons_leaf] at hcO
          rw [storedTotal_leaf] at hsum
          cases cl <;>
            simp only [attemptMergeB, hlt, if_true, if_false, Bool.false_eq_true,
              ite_true, ite_false] <;>
            refine ⟨?_, trivial, rfl, Or.inr hdel, fun _ => ⟨hdel, rfl⟩, by simp⟩ <;>
            simp only [bkdCons_leaf, bkdLeafPts, List.length_append] <;>
            omega
      · cases cl <;>
          simp only [attemptMergeB, hlt, if_true, if_false, Bool.false_eq_true,
            ite_true, ite_false] <;>
          refine ⟨⟨?_, ?_, ?_⟩, ⟨?_, ?_, ?_⟩, rfl, hD, by simp, fun _ => Or.inr rfl⟩ <;>
          first
          | (rw [storedTotal_leaf]; omega)
          | omega
          | assumption
          | trivial
  · have hAtt2 : res.attemptUp = false := by simpa using hAtt
    have hMinMe : (MIN_POINTS_BEFORE_MERGE : Int) ≤ tot + res.delta := by
      rcases hA2 hAtt2 with h0 | hNL
      · omega
      · cases hRT : res.tree with
        | leaf a b => rw [hRT] at hNL; exact absurd hNL (by simp [isLeafB])
        | node nt nb nc nd ne =>
          rw [hRT] at hMT hsum
          have h5 := ((bkdMinInv_node nt nb nc nd ne).mp hMT).1
          rw [storedTotal_node] at hsum
          omega
    cases cl <;>
      simp only [hAtt2, Bool.false_eq_true, if_true, if_false, ite_true, ite_false] <;>
      refine ⟨⟨?_, ?_, ?_⟩, ⟨hMinMe, ?_, ?_⟩, rfl, hD, by simp, fun _ => Or.inr rfl⟩ <;>
      first
      | omega
      | assumption

/-- Remove preserves the totals-consistency and merge invariants; the
stored total moves by the returned delta (0 or -1); a merge-attempt
request comes only with an actual removal and a leaf result; and a node
that does not request a merge attempt either removed nothing or is still
internal. -/
theorem bkdRemove_pres (D : Nat) :
    ∀ (t : BKD) (p : Pt), bkdCons t → bkdMinInv t →
      bkdCons (bkdRemoveAux D t p).tree ∧
      bkdMinInv (bkdRemoveAux D t p).tree ∧
      storedTotal (bkdRemoveAux D t p).tree
        = storedTotal t + (bkdRemoveAux D t p).delta ∧
      ((bkdRemoveAux D t p).delta = 0 ∨ (bkdRemoveAux D t p).delta = -1) ∧
      ((bkdRemoveAux D t p).attemptUp = true →
        (bkdRemoveAux D t p).delta = -1 ∧ isLeafB (bkdRemoveAux D t p).tree = true) ∧
      ((bkdRemoveAux D t p).attemptUp = false →
        ((bkdRemoveAux D t p).delta = 0 ∨ isLeafB (bkdRemoveAux D t p).tree = false)) := by
  intro t
  induction t with
  | leaf tot pts =>
    intro p hc hm
    rw [bkdCons_leaf] at hc
    simp only [bkdRemoveAux]
    by_cases h1 : bkdContains D pts p
    · have hmem : ∃ q ∈ pts, ptEq D q p = true := by
        simpa [bkdContains, List.any_eq_true] using h1
      obtain ⟨q, hq, hqe⟩ := hmem
      have hlen : (erasePtFirst D pts p).length = pts.length - 1 := by
        unfold erasePtFirst
        exact List.length_eraseP_of_mem hq hqe
      have hpos : 1 ≤ pts.length := List.length_pos.mpr (by rintro rfl; cases hq)
      simp only [h1, if_true]
      refine ⟨?_, ?_, ?_, ?_, ?_, ?_⟩ <;>
        first
        | (rw [bkdCons_leaf, hlen]; omega)
        | trivial
        | rfl
        | (simp [isLeafB])
    · simp only [h1, if_false, Bool.false_eq_true]
      refine ⟨?_, ?_, ?_, ?_, ?_, ?_⟩ <;>
        first
        | (rw [bkdCons_leaf]; exact hc)
        | trivial
        | rfl
        | simp
  | node tot cd cv l r ihl ihr =>
    intro p hc hm
    obtain ⟨htot, hcl, hcr⟩ := hc
    obtain ⟨hmin, hml, hmr⟩ := hm
    simp only [bkdRemoveAux]
    by_cases hb : rlt (coord p cd) cv
    · simp only [hb, if_true]
      obtain ⟨hC, hM, hT, hD, hA, hA2⟩ := ihl p hcl hml
      exact mergePhase_pres tot cd cv (bkdRemoveAux D l p) r true hcr hmr hC hM
        (by omega) hD hA hA2 hmin
    · simp only [hb, if_false, Bool.false_eq_true]
      obtain ⟨hC, hM, hT, hD, hA, hA2⟩ := ihr p hcr hmr
      exact mergePhase_pres tot cd cv (bkdRemoveAux D r p) l false hcl hml hC hM
        (by omega) hD hA hA2 hmin

/-- Under the invariants, every merge attempted along a remove path has
both children leaves and preserves the point multiset. -/
theorem bkdSafe_of_inv (D : Nat) :
    ∀ t : BKD, bkdCons t → bkdMinInv t → ∀ p : Pt, bkdRemoveMergeSafe D t p := by
  intro t
  induction t with
  | leaf tot pts => intro _ _ p; trivial
  | node tot cd cv l r ihl ihr =>
    intro hc hm p
    obtain ⟨htot, hcl, hcr⟩ := hc
    obtain ⟨hmin, hml, hmr⟩ := hm
    have hminI : (MIN_POINTS_BEFORE_MERGE : Int) = 4 := rfl
    simp only [bkdRemoveMergeSafe]
    by_cases hb : rlt (coord p cd) cv
    · simp only [hb, if_true]
      refine ⟨ihl hcl hml p, fun hatt hlt => ?_⟩
      obtain ⟨hC, hM, hT, hD, hA, hA2⟩ := bkdRemove_pres D l p hcl hml
      obtain ⟨hdel, hLf⟩ := hA hatt
      have hTnn : 0 ≤ storedTotal (bkdRemoveAux D l p).tree :=
        bkdCons_total_nonneg _ hC
      have hRleaf : isLeafB r = true := by
        cases hO : r with
        | leaf a b => rfl
        | node rtot rb rc rd re =>
          exfalso
          rw [hO] at hmr htot
          have h5 := ((bkdMinInv_node rtot rb rc rd re).mp hmr).1
          rw [storedTotal_node] at htot
          omega
      refine ⟨hLf, hRleaf, ?_⟩
      cases hRT : (bkdRemoveAux D l p).tree with
      | node a b c d e => rw [hRT] at hLf; exact absurd hLf (by simp [isLeafB])
      | leaf ct cpts =>
        cases hO : r with
        | node rtot rb rc rd re => rw [hO] at hRleaf; exact absurd hRleaf (by simp [isLeafB])
        | leaf rtot rpts => simp [bkdLeafPts, bkdPoints]
    · simp only [hb, if_false, Bool.false_eq_true]
      refine ⟨ihr hcr hmr p, fun hatt hlt => ?_⟩
      obtain ⟨hC, hM, hT, hD, hA, hA2⟩ := bkdRemove_pres D r p hcr hmr
      obtain ⟨hdel, hLf⟩ := hA hatt
      have hTnn : 0 ≤ storedTotal (bkdRemoveAux D r p).tree :=
        bkdCons_total_nonneg _ hC
      have hLleaf : isLeafB l = true := by
        cases hO : l with
        | leaf a b => rfl
        | node ltot lb lc ld le =>
          exfalso
          rw [hO] at hml htot
          have h5 := ((bkdMinInv_node ltot lb lc ld le).mp hml).1
          rw [storedTotal_node] at htot
          omega
      refine ⟨hLleaf, hLf, ?_⟩
      cases hRT : (bkdRemoveAux D r p).tree with
      | node a b c d e => rw [hRT] at hLf; exact absurd hLf (by simp [isLeafB])
      | leaf ct cpts =>
        cases hO : l with
        | node ltot lb lc ld le => rw [hO] at hLleaf; exact absurd hLleaf (by simp [isLeafB])
        | leaf ltot lpts => simp [bkdLeafPts, bkdPoints]

/-- Every reachable BucketKDTree state satisfies the totals-consistency and
merge invariants. -/
theorem bkdReachable_inv (D : Nat) :
    ∀ t : BKD, BKDReachable D t → bkdCons t ∧ bkdMinInv t := by
  intro t h
  induction h with
  | init => exact ⟨by rw [bkdCons_leaf]; rfl, trivial⟩
  | insert t p f ht ih =>
    unfold bkdInsOr
    cases hrec : bkdInsertAux D f t p with
    | none => exact ih
    | some res =>
      obtain ⟨hC, hM, _, _⟩ := bkdInsert_pres D f t p res hrec ih.1 ih.2
      exact ⟨hC, hM⟩
  | remove t p ht ih =>
    obtain ⟨hC, hM, _, _, _, _⟩ := bkdRemove_pres D t p ih.1 ih.2
    exact ⟨hC, hM⟩
  | clear t ht ih => exact ⟨by rw [bkdCons_leaf]; rfl, trivial⟩

/-! ## Generic hash structure (hashstruct.hpp) -/

/-- A Bucket: parallel lists of points and their coordinate sums. -/
structure HSBucket where
  points : List Pt
  pointSums : List Real
deriving DecidableEq

/-- The hashMap state: an association list from 1-D hash keys to buckets
(boost::unordered_map; no claim depends on iteration order). -/
abbrev HSMap := List (Int × HSBucket)

/-- HashStructure::minPointsPerBucket (hashstruct.hpp): the running minimum
starts at 0 and is folded with std::min over bucket sizes. -/
def minPointsPerBucket (m : HSMap) : Nat :=
  m.foldl (fun minCount b => min minCount b.2.points.length) 0

/-- HashStructure::maxPointsPerBucket, for contrast: running maximum
started at 0. -/
def maxPointsPerBucket (m : HSMap) : Nat :=
  m.foldl (fun maxCount b => max maxCount b.2.points.length) 0

/-- HashStructure::numBuckets. -/
def hsNumBuckets (m : HSMap) : Nat := m.length

/-- unordered_map::find on the hash map. -/
def hsFindBucket : HSMap → Int → Option HSBucket
  | [], _ => none
  | (k, b) :: rest, key => if k = key then some b else hsFindBucket rest key

/-- unordered_map::operator[] assignment: update in place or append. -/
def hsSetBucket : HSMap → Int → HSBucket → HSMap
  | [], key, b => [(key, b)]
  | (k, b0) :: rest, key, b =>
    if k = key then (key, b) :: rest else (k, b0) :: hsSetBucket rest key b

/-- HashStructure::getPointIndexInBucket: first index whose stored sum
raw-equals p.sum() and whose stored point tolerantly equals p; -1 when
none does. -/
def hsGetPointIndexInBucket (D : Nat) (p : Pt) (bucket : HSBucket) : Int :=
  match (List.range bucket.points.length).find? (fun index =>
      req (ptSum D p) (bucket.pointSums.getD index 0) &&
        ptEq D p (bucket.points.getD index [])) with
  | some index => index
  | none => -1

/-- HashStructure::insert, parameterized by the subclass hashPoint
(PyramidTree / BitHash): a found equal point returns false without any
mutation; otherwise the point and its sum are appended to the (possibly
fresh) bucket's parallel lists. -/
def hsInsert (D : Nat) (hashPoint : Pt → Int) (m : HSMap) (p : Pt) : HSMap × Bool :=
  let searchKey := hashPoint p
  match hsFindBucket m searchKey with
  | some bucket =>
    if hsGetPointIndexInBucket D p bucket ≠ -1 then (m, false)
    else
      (hsSetBucket m searchKey
        ⟨bucket.points ++ [p], bucket.pointSums ++ [ptSum D p]⟩, true)
  | none => (hsSetBucket m searchKey ⟨[p], [ptSum D p]⟩, true)

/-- All points stored across the hash map's buckets. -/
def hsPoints : HSMap → List Pt
  | [] => []
  | (_, b) :: rest => b.points ++ hsPoints rest

theorem hsFindBucket_points_sub (m : HSMap) (key : Int) (b : HSBucket)
    (h : hsFindBucket m key = some b) : ∀ q ∈ b.points, q ∈ hsPoints m := by
  induction m with
  | nil => simp [hsFindBucket] at h
  | cons e rest ih =>
    obtain ⟨k, b0⟩ := e
    simp only [hsFindBucket] at h
    by_cases hk : k = key
    · rw [if_pos hk] at h
      cases h
      intro q hq
      simp [hsPoints, hq]
    · rw [if_neg hk] at h
      intro q hq
      simp [hsPoints, ih h q hq]

/-! ## Pyramid tree hashing (pyramidtree.hpp, src/unnamed/part_002) -/

/-- A Boundary: D intervals given as (min, max) pairs. -/
abbrev Bdy := List (Real × Real)

def boundaryMin (b : Bdy) (d : Nat) : Real := (b.getD d (0, 0)).1

def boundaryMax (b : Bdy) (d : Nat) : Real := (b.getD d (0, 0)).2

/-- normaliseCoord from pyramidtree.hpp (and multigrid.hpp). -/
def normaliseCoord (c mn mx : Real) : Real := (c - mn) / (mx - mn)

/-- pyramidHeight from pyramidtree.hpp: |0.5 - normalised|. -/
def pyramidHeight (c mn mx : Real) : Real :=
  rAbs (⟨1, 2⟩ - normaliseCoord c mn mx)

/-- The (dMax, dMaxHeight) loop of PyramidTree::hashPoint: dimension 0 is
the unconditional initial candidate; the loop runs over d = 1..D-1, skips a
dimension whose height compares tolerantly equal to 0.5 (BOUNDARY_VALUE_HACK),
and updates on strictly greater height. -/
def pyramidDMax (D : Nat) (bdy : Bdy) (p : Pt) : Nat × Real :=
  ((List.range D).drop 1).foldl
    (fun acc d =>
      let currentHeight := pyramidHeight (coord p d) (boundaryMin bdy d) (boundaryMax bdy d)
      if compare currentHeight ⟨1, 2⟩ == 0 then acc
      else if rlt acc.2 currentHeight then (d, currentHeight) else acc)
    (0, pyramidHeight (coord p 0) (boundaryMin bdy 0) (boundaryMax bdy 0))

/-- The pyramid index of PyramidTree::hashPoint: dMax for the lower pyramid
(normalised coordinate < 0.5), dMax + D for the upper one. -/
def pyramidIndexOf (D : Nat) (bdy : Bdy) (p : Pt) : Nat :=
  let dm := pyramidDMax D bdy p
  let normalisedCoord :=
    normaliseCoord (coord p dm.1) (boundaryMin bdy dm.1) (boundaryMax bdy dm.1)
  if rlt normalisedCoord ⟨1, 2⟩ then dm.1 else dm.1 + D

/-- PyramidTree::hashPoint: (index + dMaxHeight) * bucketInterval, converted
to HashType (= long, truncation). -/
def pyramidHashPoint (D : Nat) (bdy : Bdy) (bucketInterval : Real) (p : Pt) : Int :=
  rTrunc ((⟨(pyramidIndexOf D bdy p : Int), 1⟩ + (pyramidDMax D bdy p).2) * bucketInterval)

/-- The bucketInterval the C++ constructor computes for D = 2:
MAX_BUCKET_NUMBER = 30000000000 is first rounded to the nearest float,
30000001024; divided by D*2 = 4 and floored this gives 7500000256.
(The exact-real value would be 7500000000; no claim depends on which.) -/
def pyramidBucketIntervalD2 : Real := ⟨7500000256, 1⟩

/-! ## Multigrid (multigrid.hpp) -/

/-- A MultigridNode: a leaf holds indices into the global point store; an
internal node holds a hash map (association list) of children. -/
inductive MGNode : Type where
  | leaf : List Nat → MGNode
  | inner : List (Int × MGNode) → MGNode

/-- unordered_map::find. -/
def mgFindBucket : List (Int × MGNode) → Int → Option MGNode
  | [], _ => none
  | (k, n) :: rest, key => if k = key then some n else mgFindBucket rest key

/-- unordered_map::operator[] assignment: update in place or append. -/
def mgSetBucket : List (Int × MGNode) → Int → MGNode → List (Int × MGNode)
  | [], key, n => [(key, n)]
  | (k, m) :: rest, key, n =>
    if k = key then (key, n) :: rest else (k, m) :: mgSetBucket rest key n

/-- The Multigrid state: boundary, intervalsPerDimension (a float member),
bucketSize, the root hash map, the global point store m_points, and the
LIFO free-index stack m_unusedIndices (head = top). -/
structure MGState where
  boundary : Bdy
  intervalsPerDimension : Real
  bucketSize : Nat
  rootBuckets : List (Int × MGNode)
  points : List Pt
  unusedIndices : List Nat

/-- A fresh Multigrid (the constructor). -/
def mgNew (bdy : Bdy) (ipd : Real) (bs : Nat) : MGState :=
  ⟨bdy, ipd, bs, [], [], []⟩

/-- Multigrid::hashPoint: normalised coordinate times intervalsPerDimension,
converted to HashType (= long, truncation). -/
def mgHashPoint (st : MGState) (p : Pt) (d : Nat) : Int :=
  rTrunc (normaliseCoord (coord p d) (boundaryMin st.boundary d)
    (boundaryMax st.boundary d) * st.intervalsPerDimension)

/-- Multigrid::insertIntoBucket.  Faithful points: (a) the append guard is
`numPoints < bucketSize OR currentDim < D` -- the split branch runs only
when the leaf is full AND currentDim >= D; (b) when a free index is reused,
the point is NOT written into m_points (the C++ code never assigns
m_points[pointIndex]); (c) the split branch re-inserts the stored points
(looked up in the live, append-only point store) into the node-turned-
internal via a fold, then the new point, and returns true unconditionally.
Fuel bounds the recursion; none = the C++ call does not terminate. -/
def mgInsertIntoBucket (D : Nat) (st : MGState) :
    Nat → Pt → Nat → MGNode → List Pt → List Nat →
    Option (MGNode × List Pt × List Nat × Bool)
  | 0, _, _, _, _, _ => none
  | fuel + 1, p, currentDim, MGNode.leaf idxs, pts, unused =>
    if idxs.length < st.bucketSize ∨ currentDim < D then
      if idxs.any (fun i => ptEq D p (pts.getD i [])) then
        some (MGNode.leaf idxs, pts, unused, false)
      else
        match unused with
        | i :: rest => some (MGNode.leaf (idxs ++ [i]), pts, rest, true)
        | [] => some (MGNode.leaf (idxs ++ [pts.length]), pts ++ [p], unused, true)
    else
      match idxs.foldl
        (fun acc i =>
          match acc with
          | none => none
          | some (n, ps, us) =>
            match mgInsertIntoBucket D st fuel (ps.getD i []) currentDim n ps us with
            | none => none
            | some (n2, ps2, us2, _) => some (n2, ps2, us2))
        (some (MGNode.inner [], pts, unused)) with
      | none => none
      | some (n2, pts2, unused2) =>
        match mgInsertIntoBucket D st fuel p currentDim n2 pts2 unused2 with
        | none => none
        | some (n3, pts3, unused3, _) => some (n3, pts3, unused3, true)
  | fuel + 1, p, currentDim, MGNode.inner cs, pts, unused =>
    let pyVal := mgHashPoint st p currentDim
    match mgFindBucket cs pyVal with
    | none =>
      some (MGNode.inner (mgSetBucket cs pyVal (MGNode.leaf [pts.length])),
        pts ++ [p], unused, true)
    | some child =>
      match mgInsertIntoBucket D st fuel p (currentDim + 1) child pts unused with
      | none => none
      | some (c2, pts2, unused2, b) =>
        some (MGNode.inner (mgSetBucket cs pyVal c2), pts2, unused2, b)

/-- Fuel far above the recursion depth of the runs proved below. -/
def mgFuel (D : Nat) (st : MGState) : Nat :=
  st.points.length + st.bucketSize + D + 16

/-- Multigrid::insert: hash dimension 0 into the root map; a missing root
bucket is created with the point appended to m_points (no index reuse on
this path); otherwise descend with currentDim = 1. -/
def mgInsert (D : Nat) (st : MGState) (p : Pt) : Option (MGState × Bool) :=
  let pyVal := mgHashPoint st p 0
  match mgFindBucket st.rootBuckets pyVal with
  | none =>
    some ({ st with
      rootBuckets := mgSetBucket st.rootBuckets pyVal (MGNode.leaf [st.points.length]),
      points := st.points ++ [p] }, true)
  | some b =>
    match mgInsertIntoBucket D st (mgFuel D st) p 1 b st.points st.unusedIndices with
    | none => none
    | some (b2, pts2, unused2, res) =>
      some ({ st with
        rootBuckets := mgSetBucket st.rootBuckets (mgHashPoint st p 0) b2,
        points := pts2, unusedIndices := unused2 }, res)

/-- The leaf/descend loop of Multigrid::query. -/
def mgQueryBucket (D : Nat) (st : MGState) :
    Nat → Pt → Nat → MGNode → Option Bool
  | 0, _, _, _ => none
  | _ + 1, p, _, MGNode.leaf idxs =>
    some (idxs.any fun i => ptEq D p (st.points.getD i []))
  | fuel + 1, p, currentDim, MGNode.inner cs =>
    match mgFindBucket cs (mgHashPoint st p currentDim) with
    | none => some false
    | some c => mgQueryBucket D st fuel p (currentDim + 1) c

/-- Multigrid::query. -/
def mgQuery (D : Nat) (st : MGState) (p : Pt) : Option Bool :=
  match mgFindBucket st.rootBuckets (mgHashPoint st p 0) with
  | none => some false
  | some b => mgQueryBucket D st (mgFuel D st) p 1 b

/-- The leaf/descend loop of Multigrid::remove: on a found point, the leaf
drops every occurrence of that index (erase-remove on pointIndices) and the
index is pushed onto the free stack (returned so the caller can push). -/
def mgRemoveBucket (D : Nat) (st : MGState) :
    Nat → Pt → Nat → MGNode → Option (MGNode × Bool × Option Nat)
  | 0, _, _, _ => none
  | _ + 1, p, _, MGNode.leaf idxs =>
    match idxs.find? (fun i => ptEq D p (st.points.getD i [])) with
    | some i => some (MGNode.leaf (idxs.filter fun j => j ≠ i), true, some i)
    | none => some (MGNode.leaf idxs, false, none)
  | fuel + 1, p, currentDim, MGNode.inner cs =>
    match mgFindBucket cs (mgHashPoint st p currentDim) with
    | none => some (MGNode.inner cs, false, none)
    | some c =>
      match mgRemoveBucket D st fuel p (currentDim + 1) c with
      | none => none
      | some (c2, b, pi) =>
        some (MGNode.inner (mgSetBucket cs (mgHashPoint st p currentDim) c2), b, pi)

/-- Multigrid::remove. -/
def mgRemove (D : Nat) (st : MGState) (p : Pt) : Option (MGState × Bool) :=
  match mgFindBucket st.rootBuckets (mgHashPoint st p 0) with
  | none => some (st, false)
  | some b =>
    match mgRemoveBucket D st (mgFuel D st) p 1 b with
    | none => none
    | some (b2, found, pi) =>
      some ({ st with
        rootBuckets := mgSetBucket st.rootBuckets (mgHashPoint st p 0) b2,
        unusedIndices :=
          match pi with
          | some i => i :: st.unusedIndices
          | none => st.unusedIndices }, found)

/-- Multigrid::clear: replaces the boundary and the root map -- m_points and
m_unusedIndices are left untouched by the C++ code. -/
def mgClear (st : MGState) (newBoundary : Bdy) : MGState :=
  { st with boundary := newBoundary, rootBuckets := [] }

/-- Multigrid::numPoints: the size of m_points. -/
def mgNumPoints (st : MGState) : Nat := st.points.length

/-- The state after an insert (unchanged if the fueled run does not finish:
the C++ call would not return). -/
def mgStepInsert (D : Nat) (st : MGState) (p : Pt) : MGState :=
  match mgInsert D st p with
  | some (st2, _) => st2
  | none => st

/-- The bool an insert returns. -/
def mgInsertFlag (D : Nat) (st : MGState) (p : Pt) : Option Bool :=
  (mgInsert D st p).map Prod.snd

/-- The state after a remove. -/
def mgStepRemove (D : Nat) (st : MGState) (p : Pt) : MGState :=
  match mgRemove D st p with
  | some (st2, _) => st2
  | none => st

/-- The root bucket under a key, if it is a leaf: its index list. -/
def mgRootLeafIdxs (st : MGState) (key : Int) : Option (List Nat) :=
  match mgFindBucket st.rootBuckets key with
  | some (MGNode.leaf idxs) => some idxs
  | _ => none

/-! ## Soundness of a false return from insert, for each variant -/

theorem mgSetBucket_self (cs : List (Int × MGNode)) (key : Int) (v : MGNode)
    (h : mgFindBucket cs key = some v) : mgSetBucket cs key v = cs := by
  induction cs with
  | nil => simp [mgFindBucket] at h
  | cons e rest ih =>
    obtain ⟨k, n⟩ := e
    simp only [mgFindBucket] at h
    simp only [mgSetBucket]
    by_cases hk : k = key
    · rw [if_pos hk] at h
      cases h
      rw [if_pos hk, hk]
    · rw [if_neg hk] at h
      rw [if_neg hk, ih h]

/-- When Multigrid::insertIntoBucket returns false, nothing was mutated,
and a query of the same point through the same node finds the equal stored
point (the duplicate scan that produced the false). -/
theorem mgInsertIntoBucket_false_sound (D : Nat) (st : MGState) :
    ∀ (fuel : Nat) (p : Pt) (currentDim : Nat) (n : MGNode)
      (pts : List Pt) (unused : List Nat)
      (n2 : MGNode) (pts2 : List Pt) (unused2 : List Nat),
      mgInsertIntoBucket D st fuel p currentDim n pts unused
        = some (n2, pts2, unused2, false) →
      n2 = n ∧ pts2 = pts ∧ unused2 = unused ∧
      (pts = st.points →
        mgQueryBucket D st fuel p currentDim n = some true) := by
  intro fuel
  induction fuel with
  | zero =>
    intro p currentDim n pts unused n2 pts2 unused2 h
    simp [mgInsertIntoBucket] at h
  | succ fuel ih =>
    intro p currentDim n pts unused n2 pts2 unused2 h
    cases n with
    | leaf idxs =>
      simp only [mgInsertIntoBucket] at h
      by_cases hg : idxs.length < st.bucketSize ∨ currentDim < D
      · rw [if_pos hg] at h
        by_cases hdup : idxs.any (fun i => ptEq D p (pts.getD i [])) = true
        · simp only [hdup, if_true] at h
          simp only [Option.some.injEq, Prod.mk.injEq] at h
          obtain ⟨h1, h2, h3, _⟩ := h
          refine ⟨h1.symm, h2.symm, h3.symm, fun hpts => ?_⟩
          simp only [mgQueryBucket, Option.some.injEq]
          rw [← hpts]
          exact hdup
        · simp only [hdup, if_false, Bool.false_eq_true] at h
          cases hu : unused with
          | cons i rest =>
            rw [hu] at h
            simp only [Option.some.injEq, Prod.mk.injEq] at h
            exact absurd h.2.2.2 (by simp)
          | nil =>
            rw [hu] at h
            simp only [Option.some.injEq, Prod.mk.injEq] at h
            exact absurd h.2.2.2 (by simp)
      · rw [if_neg hg] at h
        cases hfold : idxs.foldl
            (fun acc i =>
              match acc with
              | none => none
              | some (nn, ps, us) =>
                match mgInsertIntoBucket D st fuel (ps.getD i []) currentDim nn ps us with
                | none => none
                | some (n2x, ps2, us2, _) => some (n2x, ps2, us2))
            (some (MGNode.inner [], pts, unused)) with
        | none => rw [hfold] at h; exact absurd h (by simp)
        | some tup =>
          obtain ⟨na, ptsa, unuseda⟩ := tup
          rw [hfold] at h
          cases hrec : mgInsertIntoBucket D st fuel p currentDim na ptsa unuseda with
          | none => simp only [hrec] at h; exact absurd h (by simp)
          | some tup2 =>
            obtain ⟨nb, ptsb, unusedb, bb⟩ := tup2
            simp only [hrec, Option.some.injEq, Prod.mk.injEq] at h
            exact absurd h.2.2.2 (by simp)
    | inner cs =>
      simp only [mgInsertIntoBucket] at h
      cases hfind : mgFindBucket cs (mgHashPoint st p currentDim) with
      | none =>
        simp only [hfind, Option.some.injEq, Prod.mk.injEq] at h
        exact absurd h.2.2.2 (by simp)
      | some child =>
        cases hrec : mgInsertIntoBucket D st fuel p (currentDim + 1) child pts unused with
        | none => simp only [hfind, hrec] at h; exact absurd h (by simp)
        | some tup =>
          obtain ⟨c2, ptsc, unusedc, bc⟩ := tup
          simp only [hfind, hrec, Option.some.injEq, Prod.mk.injEq] at h
          obtain ⟨hn2, hpts2, hunused2, hb⟩ := h
          rw [hb] at hrec
          obtain ⟨hc2, hptsc, hunusedc, hquery⟩ :=
            ih p (currentDim + 1) child pts unused c2 ptsc unusedc hrec
          refine ⟨?_, by rw [← hpts2, hptsc], by rw [← hunused2, hunusedc],
            fun hpts => ?_⟩
          · rw [← hn2, hc2, mgSetBucket_self cs (mgHashPoint st p currentDim) child hfind]
          · simp only [mgQueryBucket, hfind]
            exact hquery hpts

/-- When Multigrid::insert returns false the state is unchanged and a query
of the same point already returns true. -/
theorem mgInsert_false_sound (D : Nat) (st st2 : MGState) (p : Pt)
    (h : mgInsert D st p = some (st2, false)) :
    st2 = st ∧ mgQuery D st p = some true := by
  unfold mgInsert at h
  cases hf : mgFindBucket st.rootBuckets (mgHashPoint st p 0) with
  | none =>
    simp only [hf, Option.some.injEq, Prod.mk.injEq] at h
    exact absurd h.2 (by simp)
  | some b =>
    cases hrec : mgInsertIntoBucket D st (mgFuel D st) p 1 b st.points st.unusedIndices with
    | none => simp only [hf, hrec] at h; exact absurd h (by simp)
    | some tup =>
      obtain ⟨b2, pts2, unused2, flagv⟩ := tup
      simp only [hf, hrec, Option.some.injEq, Prod.mk.injEq] at h
      obtain ⟨hst2, hflag⟩ := h
      rw [hflag] at hrec
      obtain ⟨hb2, hpts2, hunused2, hquery⟩ :=
        mgInsertIntoBucket_false_sound D st (mgFuel D st) p 1 b st.points
          st.unusedIndices b2 pts2 unused2 hrec
      constructor
      · rw [← hst2, hb2, hpts2, hunused2,
          mgSetBucket_self st.rootBuckets (mgHashPoint st p 0) b hf]
      · unfold mgQuery
        rw [hf]
        exact hquery rfl

/-- When BucketKDTree::insert returns false the tree is unchanged (delta 0)
and the leaf the descent reached holds a point tolerantly equal to the
probe. -/
theorem bkdInsert_false_sound (D : Nat) :
    ∀ (f : Nat) (t : BKD) (p : Pt) (res : InsRes),
      bkdInsertAux D f t p = some res → res.flag = false →
      res.tree = t ∧ res.delta = 0 ∧ ∃ q ∈ bkdPoints t, ptEq D q p = true := by
  intro f
  induction f with
  | zero => intro t p res h hf; simp [bkdInsertAux] at h
  | succ f ih =>
    intro t p res h hf
    cases t with
    | node tot cd cv l r =>
      simp only [bkdInsertAux] at h
      by_cases hb : rlt (coord p cd) cv
      · simp only [hb, if_true] at h
        cases hrec : bkdInsertAux D f l p with
        | none => rw [hrec] at h; exact absurd h (by simp)
        | some rl =>
          rw [hrec] at h
          cases h
          obtain ⟨he, hd, w, hw, hwe⟩ := ih l p rl hrec hf
          refine ⟨?_, hd, w, ?_, hwe⟩
          · rw [he, hd, add_zero]
          · simp [bkdPoints, hw]
      · simp only [hb, if_false, Bool.false_eq_true] at h
        cases hrec : bkdInsertAux D f r p with
        | none => rw [hrec] at h; exact absurd h (by simp)
        | some rr =>
          rw [hrec] at h
          cases h
          obtain ⟨he, hd, w, hw, hwe⟩ := ih r p rr hrec hf
          refine ⟨?_, hd, w, ?_, hwe⟩
          · rw [he, hd, add_zero]
          · simp [bkdPoints, hw]
    | leaf tot pts =>
      simp only [bkdInsertAux] at h
      by_cases h1 : bkdContains D pts p
      · simp only [h1, if_true] at h
        cases h
        obtain ⟨q, hq, hqe⟩ : ∃ q ∈ pts, ptEq D q p = true := by
          simpa [bkdContains, List.any_eq_true] using h1
        exact ⟨rfl, rfl, q, hq, hqe⟩
      · simp only [h1, if_false, Bool.false_eq_true] at h
        by_cases h2 : pts.length < MAX_POINTS_PER_BUCKET
        · simp only [h2, if_true] at h
          cases h
          simp at hf
        · simp only [h2, if_false] at h
          by_cases h3 : rlt (coord p (dimensionWithHighestRange D pts))
              (averageOfDimension (dimensionWithHighestRange D pts) pts)
          · simp only [h3, if_true] at h
            cases hrec : bkdInsertAux D f
                (BKD.leaf (((pts.partition fun q =>
                  rlt (coord q (dimensionWithHighestRange D pts))
                    (averageOfDimension (dimensionWithHighestRange D pts) pts)).1.length : Int))
                  (pts.partition fun q =>
                    rlt (coord q (dimensionWithHighestRange D pts))
                      (averageOfDimension (dimensionWithHighestRange D pts) pts)).1) p with
            | none => rw [hrec] at h; exact absurd h (by simp)
            | some rl =>
              rw [hrec] at h
              cases h
              simp at hf
          · simp only [h3, if_false] at h
            cases hrec : bkdInsertAux D f
                (BKD.leaf (((pts.partition fun q =>
                  rlt (coord q (dimensionWithHighestRange D pts))
                    (averageOfDimension (dimensionWithHighestRange D pts) pts)).2.length : Int))
                  (pts.partition fun q =>
                    rlt (coord q (dimensionWithHighestRange D pts))
                      (averageOfDimension (dimensionWithHighestRange D pts) pts)).2) p with
            | none => rw [hrec] at h; exact absurd h (by simp)
            | some rr =>
              rw [hrec] at h
              cases h
              simp at hf

/-- When HashStructure::insert returns false the map is unchanged and the
probed bucket holds a point tolerantly equal to the probe. -/
theorem hsInsert_false_sound (D : Nat) (hashPoint : Pt → Int) (m : HSMap) (p : Pt)
    (h : (hsInsert D hashPoint m p).2 = false) :
    (hsInsert D hashPoint m p).1 = m ∧ ∃ q ∈ hsPoints m, ptEq D p q = true := by
  unfold hsInsert at h ⊢
  cases hf : hsFindBucket m (hashPoint p) with
  | none => simp [hf] at h
  | some bucket =>
    simp only [hf] at h ⊢
    by_cases hidx : hsGetPointIndexInBucket D p bucket ≠ -1
    · rw [if_pos hidx] at h ⊢
      refine ⟨rfl, ?_⟩
      unfold hsGetPointIndexInBucket at hidx
      cases hfind : (List.range bucket.points.length).find? (fun index =>
          req (ptSum D p) (bucket.pointSums.getD index 0) &&
            ptEq D p (bucket.points.getD index [])) with
      | none => rw [hfind] at hidx; simp at hidx
      | some i =>
        have hpred := List.find?_some hfind
        have hi : i < bucket.points.length :=
          List.mem_range.mp (List.mem_of_find?_eq_some hfind)
        have hqe : ptEq D p (bucket.points.getD i []) = true := by
          revert hpred
          cases ptEq D p (bucket.points.getD i []) <;> simp
        refine ⟨bucket.points.getD i [], ?_, hqe⟩
        refine hsFindBucket_points_sub m (hashPoint p) bucket hf _ ?_
        rw [List.getD_eq_getElem bucket.points [] hi]
        exact List.getElem_mem hi
    · rw [if_neg hidx] at h
      simp at h
theorem kdInsert_false_sound (D : Nat) :
    ∀ (t : KDT) (p : Pt) (cd : Nat),
      (kdInsertAux D t p cd).2 = false →
      (kdInsertAux D t p cd).1 = t ∧ ∃ q ∈ kdPoints t, ptEq D p q = true := by
  intro t
  induction t with
  | nil => intro p cd h; simp [kdInsertAux] at h
  | node q l r ihl ihr =>
    intro p cd h
    simp only [kdInsertAux] at h ⊢
    by_cases h1 : rlt (coord p cd) (coord q cd)
    · simp only [h1, if_true] at h ⊢
      obtain ⟨he, w, hw, hwe⟩ := ihl p (nextCuttingDimension D cd) h
      refine ⟨by rw [he], w, ?_, hwe⟩
      simp [kdPoints, hw]
    · by_cases h2 : ptEq D p q
      · simp only [h1, h2, if_true, if_false, Bool.false_eq_true] at h ⊢
        exact ⟨trivial, q, by simp [kdPoints], h2⟩
      · simp only [h1, h2, if_false, Bool.false_eq_true] at h ⊢
        obtain ⟨he, w, hw, hwe⟩ := ihr p (nextCuttingDimension D cd) h
        refine ⟨by rw [he], w, ?_, hwe⟩
        simp [kdPoints, hw]

/-! ## Concrete scenario states shared by the claim theorems -/

/-- The boundary [[0,1],[0,1]] used by the 2-D hash scenarios. -/
def bdyUnit2 : Bdy := [((0 : Real), (1 : Real)), (0, 1)]

/-- KDTree holding only the origin (D = 2). -/
def kdC1tree : KDT := KDT.node [0, 0] KDT.nil KDT.nil

/-- KDTree (D = 1) holding only the point (0.5). -/
def kdC3tree : KDT := KDT.node [⟨1, 2⟩] KDT.nil KDT.nil

/-- The probe 0.49999995 = 0.5 - 5e-8: tolerantly equal to 0.5 (the gap is
below EPSILON = 1e-7) but raw-strictly smaller. -/
def kdC3p : Pt := [⟨9999999, 20000000⟩]

/-- Multigrid D = 2, bucket_size = 1, intervals_per_dimension = 1000: state
after inserting (0, 0). -/
def mgC2s1 : MGState := mgStepInsert 2 (mgNew bdyUnit2 ⟨1000, 1⟩ 1) [0, 0]

/-- The second point of the C2 scenario: same dimension-0 cell as (0, 0). -/
def mgC2p : Pt := [0, ⟨1, 2⟩]

/-- Multigrid D = 2, bucket_size = 8: fresh. -/
def mgC4s0 : MGState := mgNew bdyUnit2 ⟨1000, 1⟩ 8

def mgC4s1 : MGState := mgStepInsert 2 mgC4s0 [0, 0]

def mgC4s2 : MGState := mgStepInsert 2 mgC4s1 [0, ⟨1, 2⟩]

def mgC4s3 : MGState := mgStepRemove 2 mgC4s2 [0, ⟨1, 2⟩]

/-- The point whose insert reuses the freed slot. -/
def mgC4p : Pt := [0, ⟨9, 10⟩]

def mgC4s4 : MGState := mgStepInsert 2 mgC4s3 mgC4p

/-- Multigrid D = 2, bucket_size = 8: state after inserting (0, 0), for the
clear scenario. -/
def mgC9s1 : MGState := mgStepInsert 2 (mgNew bdyUnit2 ⟨1000, 1⟩ 8) [0, 0]

/-- The spec-D scenario probe (1.0, 0.5) for the pyramid boundary-value
hack. -/
def pHack : Pt := [1, ⟨1, 2⟩]

/-- bkdTree9 is reachable from the fresh BucketKDTree. -/
theorem bkdTree9_reachable : BKDReachable 3 bkdTree9 := by
  have h0 : BKDReachable 3 (BKD.leaf 0 []) := .init
  have h1 : BKDReachable 3 bkdTree1 := .insert _ _ _ h0
  have h2 : BKDReachable 3 bkdTree2 := .insert _ _ _ h1
  have h3 : BKDReachable 3 bkdTree3 := .insert _ _ _ h2
  have h4 : BKDReachable 3 bkdTree4 := .insert _ _ _ h3
  have h5 : BKDReachable 3 bkdTree5 := .insert _ _ _ h4
  have h6 : BKDReachable 3 bkdTree6 := .insert _ _ _ h5
  have h7 : BKDReachable 3 bkdTree7 := .insert _ _ _ h6
  have h8 : BKDReachable 3 bkdTree8 := .insert _ _ _ h7
  exact .insert _ _ _ h8

/-! ## The claim theorems -/

/-- C1: remove-without-insert must return false and leave the state
unchanged; the code violates this.  On a KDTree (D = 2) storing only
(0, 0), removing the never-stored point (0, 5) -- whose cutting-dimension
coordinate 0 coincides with the stored point's -- returns true and deletes
(0, 0): recursiveRemove treats equality of the single coordinate p[cd] as
a full match. -/
theorem kdtree_remove_unstored_point_bug :
    ptEq 2 [0, 5] [0, 0] = false ∧
    kdRemove 2 kdC1tree [0, 5] = (KDT.nil, true) ∧
    kdPoints kdC1tree = [[0, 0]] := by decide

/-- C2: the claim says a leaf splits exactly when the insert would exceed
bucket_size and the level is below D.  In the code the guard is reversed
(insertIntoBucket appends whenever `numPoints < bucketSize OR currentDim
< D`), so with D = 2, bucket_size = 1, after inserting (0, 0), inserting
(0, 0.5) into the same dimension-0 cell leaves the root bucket a leaf with
two indices instead of converting it to an internal node. -/
theorem multigrid_leaf_never_splits_bug :
    mgC2s1.bucketSize = 1 ∧
    mgRootLeafIdxs mgC2s1 0 = some [0] ∧
    mgInsertFlag 2 mgC2s1 mgC2p = some true ∧
    mgRootLeafIdxs (mgStepInsert 2 mgC2s1 mgC2p) 0 = some [0, 1] := by decide

/-- C3 counterexample: a KDTree (D = 1) stores (0.5); inserting the
tolerantly equal probe 0.49999995 (raw-strictly smaller, so the stored
point's cutting coordinate is raw-strictly greater) returns true and grows
the tree to two points, although the claim requires false and no
mutation. -/
theorem kdtree_insert_duplicate_counterexample :
    ptEq 1 kdC3p [⟨1, 2⟩] = true ∧
    (kdInsert 1 kdC3tree kdC3p).2 = true ∧
    (kdPoints (kdInsert 1 kdC3tree kdC3p).1).length = 2 := by decide

/-- A BucketKDTree leaf storing (0.5), for the C3 witness. -/
def bkdWitLeaf : BKD := BKD.leaf 1 [[⟨1, 2⟩]]

/-- A hash map with one bucket storing (0.5) with its sum, for the C3
witness. -/
def hsWitMap : HSMap := [(0, ⟨[[⟨1, 2⟩]], [ptSum 1 [⟨1, 2⟩]]⟩)]

/-- C3 (amended): for every index variant -- KDTree, BucketKDTree, the
HashStructure-based PyramidTree/BitHash, and Multigrid -- insert(p)
returning false implies the structure is unchanged and a stored point
tolerantly equal to p was found on the probe's search path (for Multigrid:
query(p) already returns true); the converse fails for KDTree (see the
counterexample): a stored equal point whose cutting-dimension coordinate
is raw-strictly greater than p's is bypassed by the left branch taken
before the equality test, so insert(p) returns true and stores p alongside
it. -/
theorem insert_false_unchanged_and_present :
    (∀ (D : Nat) (t : KDT) (p : Pt) (cd : Nat),
        (kdInsertAux D t p cd).2 = false →
        (kdInsertAux D t p cd).1 = t ∧ ∃ q ∈ kdPoints t, ptEq D p q = true) ∧
    (∀ (D f : Nat) (t : BKD) (p : Pt) (res : InsRes),
        bkdInsertAux D f t p = some res → res.flag = false →
        res.tree = t ∧ res.delta = 0 ∧ ∃ q ∈ bkdPoints t, ptEq D q p = true) ∧
    (∀ (D : Nat) (hashPoint : Pt → Int) (m : HSMap) (p : Pt),
        (hsInsert D hashPoint m p).2 = false →
        (hsInsert D hashPoint m p).1 = m ∧ ∃ q ∈ hsPoints m, ptEq D p q = true) ∧
    (∀ (D : Nat) (st st2 : MGState) (p : Pt),
        mgInsert D st p = some (st2, false) →
        st2 = st ∧ mgQuery D st p = some true) :=
  ⟨kdInsert_false_sound, bkdInsert_false_sound, hsInsert_false_sound,
    mgInsert_false_sound⟩

/-- C3 witness: each variant's conjunct applied at a concrete state that
stores (0.5) (for Multigrid: the C4 scenario state storing (0,0) and
(0,0.5)) and re-inserts the stored point; the insert returns false, the
state is unchanged and the stored equal point is produced. -/
theorem insert_false_unchanged_and_present_witness :
    ((kdInsertAux 1 kdC3tree [⟨1, 2⟩] 0).2 = false ∧
      (kdInsertAux 1 kdC3tree [⟨1, 2⟩] 0).1 = kdC3tree ∧
      ∃ q ∈ kdPoints kdC3tree, ptEq 1 [⟨1, 2⟩] q = true) ∧
    (bkdInsertAux 1 8 bkdWitLeaf [⟨1, 2⟩] = some ⟨bkdWitLeaf, false, 0⟩ ∧
      ∃ q ∈ bkdPoints bkdWitLeaf, ptEq 1 q [⟨1, 2⟩] = true) ∧
    ((hsInsert 1 (fun _ => 0) hsWitMap [⟨1, 2⟩]).2 = false ∧
      (hsInsert 1 (fun _ => 0) hsWitMap [⟨1, 2⟩]).1 = hsWitMap ∧
      ∃ q ∈ hsPoints hsWitMap, ptEq 1 [⟨1, 2⟩] q = true) ∧
    (mgInsert 2 mgC4s2 [0, ⟨1, 2⟩] = some (mgStepInsert 2 mgC4s2 [0, ⟨1, 2⟩], false) ∧
      mgStepInsert 2 mgC4s2 [0, ⟨1, 2⟩] = mgC4s2 ∧
      mgQuery 2 mgC4s2 [0, ⟨1, 2⟩] = some true) := by
  have hkd := insert_false_unchanged_and_present.1 1 kdC3tree [⟨1, 2⟩] 0 (by decide)
  have hbkd := insert_false_unchanged_and_present.2.1 1 8 bkdWitLeaf [⟨1, 2⟩]
    ⟨bkdWitLeaf, false, 0⟩ (by decide) rfl
  have hhs := insert_false_unchanged_and_present.2.2.1 1 (fun _ => 0) hsWitMap
    [⟨1, 2⟩] (by decide)
  have hmgEq : mgInsert 2 mgC4s2 [0, ⟨1, 2⟩]
      = some (mgStepInsert 2 mgC4s2 [0, ⟨1, 2⟩], false) := rfl
  have hmg := insert_false_unchanged_and_present.2.2.2 2 mgC4s2
    (mgStepInsert 2 mgC4s2 [0, ⟨1, 2⟩]) [0, ⟨1, 2⟩] hmgEq
  exact ⟨⟨by decide, hkd⟩, ⟨by decide, hbkd.2.2⟩, ⟨by decide, hhs⟩, ⟨hmgEq, hmg⟩⟩

/-- C4: insert-then-query must yield true; the code violates this.  On a
Multigrid (D = 2) reachable state with a non-empty free-index stack
(insert (0,0); insert (0,0.5); remove (0,0.5)), inserting (0, 0.9) returns
true but reuses the freed slot without writing the point into m_points
(the store still holds the removed (0, 0.5)), so the following query
returns false. -/
theorem multigrid_insert_then_query_reuse_bug :
    mgC4s3.unusedIndices = [1] ∧
    mgInsertFlag 2 mgC4s3 mgC4p = some true ∧
    mgC4s4.points = [[0, 0], [0, ⟨1, 2⟩]] ∧
    mgQuery 2 mgC4s4 mgC4p = some false := by decide

/-- C5 counterexample: in the nine-point scenario the root's cutting value
is 0.35 = 7/20 (the mean of the first eight dimension-0 coordinates
0.0..0.7), not 0.4 as the claim states (0.4 is the mean of all nine). -/
theorem bucket_kdtree_cutting_value_counterexample :
    req (bkdCuttingValue bkdTree9) ⟨7, 20⟩ = true ∧
    req (bkdCuttingValue bkdTree9) ⟨2, 5⟩ = false := by decide

/-- C5 (amended): after the ninth insert the root is internal with
cutting_dimension 0 and cutting_value the arithmetic mean of the first
eight inserted points' dimension-0 coordinates, which is 0.35. -/
theorem bucket_kdtree_split_scenario :
    isLeafB bkdTree9 = false ∧
    bkdCuttingDimension bkdTree9 = 0 ∧
    req (bkdCuttingValue bkdTree9)
      (averageOfDimension 0 [bk 0, bk 1, bk 2, bk 3, bk 4, bk 5, bk 6, bk 7]) = true ∧
    req (bkdCuttingValue bkdTree9) ⟨7, 20⟩ = true ∧
    bkdPoints bkdTree9 = [bk 0, bk 1, bk 2, bk 3, bk 4, bk 5, bk 6, bk 7, bk 8] := by
  decide

/-- C6 counterexample: removing five of the nine points leaves
total_points = 4, which is not below MERGE_THRESHOLD = 4, so the root is
still internal -- the claim's assertion that five removals merge the root
is false. -/
theorem bucket_kdtree_five_removals_counterexample :
    storedTotal bkdTree9r5 = 4 ∧ isLeafB bkdTree9r5 = false := by decide

/-- C6 (amended): an internal node on which a merge is attempted with
total_points < MERGE_THRESHOLD = 4 collapses into a leaf holding the union
of its children's points; in the nine-point scenario five removals leave
total_points = 4 and the root internal, and the sixth removal
(total_points = 3 < 4) merges the root back into a leaf holding the three
remaining points. -/
theorem bucket_kdtree_merge_scenario :
    storedTotal bkdTree9r5 = 4 ∧ isLeafB bkdTree9r5 = false ∧
    bkdPoints bkdTree9r5 = [bk 5, bk 6, bk 7, bk 8] ∧
    isLeafB bkdTree9r6 = true ∧ storedTotal bkdTree9r6 = 3 ∧
    bkdLeafPts bkdTree9r6 = [bk 6, bk 7, bk 8] := by decide

/-- C7 counterexample: for p = (1.0, 0.5) over the boundary [[0,1],[0,1]]
the claim asserts dMax = 1 and pyramid index 3; the code keeps dimension 0
(the unconditional initial candidate, to which the boundary-value skip
never applies) as dMax, and routes to the upper pyramid of dimension 0,
index 2. -/
theorem pyramid_boundary_hack_counterexample :
    ¬ ((pyramidDMax 2 bdyUnit2 pHack).1 = 1 ∧
       pyramidIndexOf 2 bdyUnit2 pHack = 3) := by decide

/-- C7 (amended): the heights are (0.5, 0.0); the boundary-value skip
applies only to the loop dimensions d >= 1, dimension 0 stays the
max-candidate, so dMax = 0; the normalised coordinate 1.0 is not below
0.5, so the upper pyramid is chosen: pyramid_index = 0 + D = 2, and the
hash key is (2 + 0.5) * bucketInterval. -/
theorem pyramid_boundary_hack_scenario :
    req (pyramidHeight (coord pHack 0) 0 1) ⟨1, 2⟩ = true ∧
    req (pyramidHeight (coord pHack 1) 0 1) 0 = true ∧
    (pyramidDMax 2 bdyUnit2 pHack).1 = 0 ∧
    pyramidIndexOf 2 bdyUnit2 pHack = 2 ∧
    pyramidHashPoint 2 bdyUnit2 pyramidBucketIntervalD2 pHack = 18750000640 := by
  decide

/-- C8: in every BucketKDTree state reachable from the empty tree by
insert / remove / clear, whenever a merge is attempted on an internal node
during a remove and its decremented total_points is below
MERGE_THRESHOLD = 4, both children of that node are leaves and the merged
leaf's point list is exactly the subtree's point list -- no point is
lost. -/
theorem bucket_kdtree_attempted_merge_children_leaves (D : Nat) (t : BKD)
    (h : BKDReachable D t) (p : Pt) : bkdRemoveMergeSafe D t p :=
  bkdSafe_of_inv D t (bkdReachable_inv D t h).1 (bkdReachable_inv D t h).2 p

/-- C8 witness: the nine-point scenario tree is reachable, and the theorem
applies to it. -/
theorem bucket_kdtree_attempted_merge_children_leaves_witness :
    BKDReachable 3 bkdTree9 ∧ bkdRemoveMergeSafe 3 bkdTree9 (bk 0) :=
  ⟨bkdTree9_reachable,
    bucket_kdtree_attempted_merge_children_leaves 3 bkdTree9 bkdTree9_reachable (bk 0)⟩

/-- C9: clear must restore the externally observable state of a fresh
boundary-initialized instance; the code violates this for Multigrid.
Multigrid::clear replaces only the boundary and the root map and leaves
m_points untouched, so after insert (0,0) and clear, numPoints() is still
1 while a fresh instance reports 0 (queries do return false). -/
theorem multigrid_clear_numpoints_bug :
    mgNumPoints (mgClear mgC9s1 bdyUnit2) = 1 ∧
    mgNumPoints (mgNew bdyUnit2 ⟨1000, 1⟩ 8) = 0 ∧
    mgQuery 2 (mgClear mgC9s1 bdyUnit2) [0, 0] = some false := by decide

/-- C10: minPointsPerBucket returns 0 in every hash-map state, because the
running minimum is initialised to 0 before the fold over the buckets. -/
theorem min_points_per_bucket_always_zero :
    ∀ m : HSMap, minPointsPerBucket m = 0 := by
  intro m
  unfold minPointsPerBucket
  induction m with
  | nil => rfl
  | cons b rest ih => simp only [List.foldl_cons, Nat.zero_min]; exact ih

end mdsearch
